import Mathlib

/-!
Persistent bash driver (`src/main.cpp`): a shallow embedding.

`std::string` is a list of characters (one `Char` per C++ `char`).  The
operating system is taken as input: the pseudo random generator is a
transition function on an arbitrary state, the value returned by `write` is
an integer, and the child's answers are a script of `read` results.  When the
script is used up the readiness wait of the receive loop never returns, which
the model reports as `none` / `Outcome.blocked`.

A `std::string` never holds more than `max_size () < 2^64` characters, so
`size ()` is the length of the list; the width of `size_t` (64 bits) and of
`int` (32 bits) is made explicit where a subtraction or a conversion can
leave the range.
-/

namespace BashPipe

/-- A `std::string`. -/
abbrev Bytes := List Char

/-- The exceptions of the standard library that `runCommand` lets escape. -/
inductive Exception where
  | length_error
  | out_of_range
  | invalid_argument
deriving DecidableEq, Repr

/-! ## Machine integers -/

/-- The constant `std::string::npos`, the largest `size_t`. -/
def npos : Nat := 2 ^ 64 - 1

/-- The value of `std::string::max_size ()` in libstdc++ on a 64 bit target. -/
def max_size : Nat := 2 ^ 62 - 1

/-- Subtraction `a - b` of two `size_t` values: below zero it wraps modulo `2^64`. -/
def sizeSub (a b : Nat) : Nat := if b ≤ a then a - b else a + 2 ^ 64 - b

/-- Reduction of an integer to the range of a 32 bit `int` (two's complement). -/
def wrapInt (i : Int) : Int :=
  let r := i % 2 ^ 32
  if r < 2 ^ 31 then r else r - 2 ^ 32

/-- Conversion `size_t → int`, as in `int newLinePosition = command.rfind (..)`. -/
def toInt (n : Nat) : Int := wrapInt (n : Int)

/-- Conversion `int → size_t` of an argument of `substr`. -/
def toSizeT (i : Int) : Nat := (i % 2 ^ 64).toNat

/-! ## The `std::string` operations used by `runCommand` -/

/-- The call `s.resize (n)`: truncation, or padding with NUL characters, which
throws when the new size exceeds `max_size ()`. -/
def resize (s : Bytes) (n : Nat) : Except Exception Bytes :=
  if n ≤ s.length then .ok (s.take n)
  else if n > max_size then .error .length_error
  else .ok (s ++ List.replicate (n - s.length) (Char.ofNat 0))

/-- The call `s.substr (pos, n)`. -/
def substr (s : Bytes) (pos n : Nat) : Except Exception Bytes :=
  if pos > s.length then .error .out_of_range
  else .ok ((s.drop pos).take n)

/-- The call `s.rfind (c)`: the index of the last occurrence of `c`, or `npos`. -/
def rfind (s : Bytes) (c : Char) : Nat :=
  let i := s.reverse.indexOf c
  if i < s.length then s.length - 1 - i else npos

/-- The test `isspace` of the C locale. -/
def isspace (c : Char) : Bool :=
  c = ' ' || (9 ≤ c.toNat && c.toNat ≤ 13)

/-- The value of a run of decimal digits. -/
def digitsValue (ds : Bytes) : Nat :=
  ds.foldl (fun acc d => 10 * acc + (d.toNat - 48)) 0

/-- The optional sign `strtol` reads: whether it is a minus, and what follows it. -/
def skipSign (body : Bytes) : Bool × Bytes :=
  match body with
  | '-' :: t => (true, t)
  | '+' :: t => (false, t)
  | _ => (false, body)

/-- The call `std::stoi (s)`: white space is skipped, an optional sign is read,
then the longest run of decimal digits is converted; what follows the digits
is ignored. -/
def stoi (s : Bytes) : Except Exception Int :=
  let signed := skipSign (s.dropWhile isspace)
  let ds := signed.2.takeWhile Char.isDigit
  if ds.isEmpty then .error .invalid_argument
  else
    let v : Int := if signed.1 then -(digitsValue ds : Int) else (digitsValue ds : Int)
    if v < -(2 ^ 31) ∨ 2 ^ 31 - 1 < v then .error .out_of_range else .ok v

/-- The call `std::to_string (i)` on an `int`. -/
def to_string (i : Int) : Bytes :=
  if i < 0 then '-' :: Nat.toDigits 10 i.natAbs else Nat.toDigits 10 i.toNat

/-! ## `generateDelimiter` -/

/-- The value `uniform_int_distribution<> (a, b)` makes of one raw draw: a
member of the closed range `[a, b]`. -/
def uniform_int_distribution (a b raw : Nat) : Nat := a + raw % (b - a + 1)

/-- The lambda `gen`: one draw of `dist ('a', 'z')` from the generator `prng`,
whose transition function is `next`. -/
def gen {σ : Type} (next : σ → Nat × σ) (prng : σ) : Char × σ :=
  let d := next prng
  (Char.ofNat (uniform_int_distribution 'a'.toNat 'z'.toNat d.1), d.2)

/-- The call `std::generate` over `n` successive positions. -/
def generate {σ : Type} (next : σ → Nat × σ) : Nat → σ → Bytes × σ
  | 0, prng => ([], prng)
  | n + 1, prng =>
    let g := gen next prng
    let r := generate next n g.2
    (g.1 :: r.1, r.2)

/-- The function `generateDelimiter`: 128 positions filled by `gen`. -/
def generateDelimiter {σ : Type} (next : σ → Nat × σ) (prng : σ) : Bytes × σ :=
  generate next 128 prng

/-! ## `runCommand` -/

/-- The result of one `read (in, &buffer[0], buffer.size ())`. -/
inductive ReadResult where
  /-- The call stored `chunk` in the buffer and returned its length. -/
  | ok (chunk : Bytes)
  /-- The call stored nothing and returned `len` (`-1` on an error). -/
  | fail (len : Int)
deriving DecidableEq, Repr

/-- The value returned by the `read`. -/
def ReadResult.len : ReadResult → Int
  | .ok chunk => (chunk.length : Int)
  | .fail len => len

/-- The bytes `buffer.begin () .. buffer.begin () + len` after the `read`. -/
def ReadResult.chunk : ReadResult → Bytes
  | .ok chunk => chunk
  | .fail _ => []

/-- The size of the read buffer. -/
def bufferSize : Nat := 1024

/-- The suffix appended to the raw command, up to the delimiter:
`" 2>&1\necho -e $?\"\\n\""`. -/
def statusEcho : Bytes :=
  [' ', '2', '>', '&', '1', '\n', 'e', 'c', 'h', 'o', ' ', '-', 'e', ' ', '$', '?',
    Char.ofNat 34, Char.ofNat 92, 'n', Char.ofNat 34]

/-- The test `command.size () >= delimiter.size () &&
command.substr (command.size () - delimiter.size ()) == delimiter`. -/
def endsWithDelimiter (command delimiter : Bytes) : Bool :=
  decide (delimiter.length ≤ command.length) &&
    (command.drop (command.length - delimiter.length) == delimiter)

/-- The `while (true)` loop: returns the accumulated buffer and the reads not
performed, or `none` when the script of reads is used up before the loop exits
(the readiness wait blocks for ever). -/
def receiveLoop (delimiter : Bytes) : Bytes → List ReadResult → Option (Bytes × List ReadResult)
  | _, [] => none
  | command, r :: rest =>
    if r.len ≤ 0 then
      some (command ++ ('\n' :: to_string (-1) ++ '\n' :: delimiter), rest)
    else
      let command := command ++ r.chunk
      if endsWithDelimiter command delimiter then some (command, rest)
      else receiveLoop delimiter command rest

/-- What a call of `runCommand` ends in. -/
inductive Outcome where
  | returned (output : Bytes) (exitStatus : Int)
  | threw (e : Exception)
  | blocked
deriving DecidableEq, Repr

/-- Sequencing of a library call that may throw: the call's value is passed
on, an exception ends `runCommand`. -/
def orThrow {α : Type} (r : Except Exception α) (k : α → Outcome) : Outcome :=
  match r with
  | .error e => .threw e
  | .ok a => k a

/-- Lines 140 to 153: strip the delimiter line and the byte before it, split at
the last newline, convert the status.  The addition `newLinePosition + 1` is
done on `int` and wraps. -/
def parseResponse (delimiter command : Bytes) : Outcome :=
  orThrow (resize command (sizeSub command.length (delimiter.length + 1))) fun command =>
  let newLinePosition : Int := toInt (rfind command '\n')
  orThrow (substr command (toSizeT (wrapInt (newLinePosition + 1))) command.length) fun status =>
  orThrow (stoi status) fun exitStatus =>
  orThrow (substr command 0 (toSizeT newLinePosition)) fun output =>
  .returned output exitStatus

/-- Everything observable of one call of `runCommand`. -/
structure Run (σ : Type) where
  /-- The bytes handed to `write`. -/
  written : Bytes
  /-- The reads the call did not perform. -/
  unread : List ReadResult
  /-- The value returned, or how the call ended otherwise. -/
  outcome : Outcome
  /-- The state of the generator after the call. -/
  prng : σ

/-- The function `runCommand`; `len` is what `write` returns and `reads` what
the successive calls of `read` return. -/
def runCommand {σ : Type} (next : σ → Nat × σ) (prng : σ) (command : Bytes) (len : Int)
    (reads : List ReadResult) : Run σ :=
  let d := generateDelimiter next prng
  let delimiter := d.1 ++ ['\n']
  let command := command ++ (statusEcho ++ delimiter)
  if len ≤ 0 then
    { written := command, unread := reads, outcome := .returned [] (-1), prng := d.2 }
  else
    match receiveLoop delimiter [] reads with
    | none => { written := command, unread := [], outcome := .blocked, prng := d.2 }
    | some (buffer, rest) =>
      { written := command, unread := rest, outcome := parseResponse delimiter buffer,
        prng := d.2 }

/-! ## `startChildShell` -/

/-- What the operating system answers during one call of `startChildShell`. -/
structure SpawnEnv where
  /-- The descriptors `pipe (inPipeFD)` stores, `none` when it fails. -/
  inPipe : Option (Int × Int)
  /-- The descriptors `pipe (outPipeFD)` stores, `none` when it fails. -/
  outPipe : Option (Int × Int)
  /-- The content of the uninitialised array `inPipeFD`. -/
  inGarbage : Int × Int
  /-- The content of the uninitialised array `outPipeFD`. -/
  outGarbage : Int × Int
  /-- The value returned by `fork`. -/
  pid : Int
  /-- Whether `execl` replaces the process image (child only). -/
  execOk : Bool
  /-- Whether the `SIGTERM` the child sends itself ends it (child only). -/
  killEnds : Bool

/-- The caller's variables passed by reference. -/
structure Session where
  inFd : Int
  outFd : Int
  childPID : Int
deriving DecidableEq, Repr

/-- How a call of `startChildShell` ends in the process that made it. -/
inductive SpawnResult where
  /-- The function returned `b`, leaving the caller's variables as `s`. -/
  | ret (b : Bool) (s : Session)
  /-- The child became bash or was terminated: the call never returns. -/
  | gone
deriving DecidableEq, Repr

/-- The function `startChildShell`. -/
def startChildShell (env : SpawnEnv) (s : Session) : SpawnResult :=
  let inPipeFD := env.inPipe.getD env.inGarbage
  let outPipeFD := env.outPipe.getD env.outGarbage
  if env.pid < 0 then .ret false s
  else if env.pid = 0 then
    if env.execOk then .gone
    else if env.killEnds then .gone
    else .ret false s
  else
    .ret true { inFd := inPipeFD.1, outFd := outPipeFD.2, childPID := env.pid }

/-! ## Inputs used in the examples -/

/-- A generator whose every draw is `25`, which `dist` maps to the letter `z`. -/
def fixedGen : Unit → Nat × Unit := fun u => (25, u)

/-- The delimiter letters `fixedGen` gives: 128 times `z`. -/
def fixedDelimiter : Bytes := List.replicate 128 'z'

/-- The raw command `X=1`. -/
def assignment : Bytes := ['X', '=', '1']

/-- What bash sends after the output of a command that succeeded: a newline, the
status `0`, a newline and the delimiter line of `fixedGen`. -/
def okTrailer : Bytes := '\n' :: '0' :: '\n' :: (fixedDelimiter ++ ['\n'])

/-- An output of `2^31` bytes (2 GiB), none of them a newline. -/
def bigOutput : Bytes := List.replicate (2 ^ 31) 'x'

/-- The output `bigOutput` as it arrives in full buffers of 1024 bytes. -/
def bigChunks : List Bytes := List.replicate (2 ^ 21) (List.replicate 1024 'x')


/-! ## Lemmas on the string operations -/

theorem endsWithDelimiter_iff (command delimiter : Bytes) :
    endsWithDelimiter command delimiter = true ↔ delimiter <:+ command := by
  unfold endsWithDelimiter
  constructor
  · intro h
    simp only [Bool.and_eq_true, decide_eq_true_eq, beq_iff_eq] at h
    exact ⟨command.take (command.length - delimiter.length), by
      conv_rhs => rw [← List.take_append_drop (command.length - delimiter.length) command]
      rw [h.2]⟩
  · rintro ⟨t, rfl⟩
    simp

theorem endsWithDelimiter_eq_false (command delimiter : Bytes) (h : ¬ delimiter <:+ command) :
    endsWithDelimiter command delimiter = false := by
  cases hb : endsWithDelimiter command delimiter
  · rfl
  · exact absurd ((endsWithDelimiter_iff _ _).1 hb) h

theorem rfind_append_cons (a b : Bytes) (c : Char) (hb : c ∉ b) :
    rfind (a ++ c :: b) c = a.length := by
  unfold rfind
  have hrev : (a ++ c :: b).reverse = b.reverse ++ c :: a.reverse := by simp
  have hidx : List.indexOf c (a ++ c :: b).reverse = b.length := by
    rw [hrev, List.indexOf_append_of_not_mem (by simpa using hb), List.indexOf_cons_self]
    simp
  simp only [hidx, List.length_append, List.length_cons]
  rw [if_pos (by omega)]
  omega

theorem rfind_of_not_mem (s : Bytes) (c : Char) (h : c ∉ s) : rfind s c = npos := by
  unfold rfind
  have hidx : List.indexOf c s.reverse = s.length := by
    rw [List.indexOf_of_not_mem (by simpa using h)]
    simp
  simp [hidx]

theorem wrapInt_of_range (i : Int) (h0 : 0 ≤ i) (h1 : i < 2 ^ 31) : wrapInt i = i := by
  unfold wrapInt
  have : i % 2 ^ 32 = i := Int.emod_eq_of_lt h0 (by omega)
  simp only [this]
  rw [if_pos h1]

theorem toInt_of_lt (n : Nat) (h : n < 2 ^ 31) : toInt n = (n : Int) := by
  unfold toInt
  exact wrapInt_of_range _ (by omega) (by exact_mod_cast h)

theorem toSizeT_natCast (n : Nat) (h : n < 2 ^ 64) : toSizeT (n : Int) = n := by
  unfold toSizeT
  have : ((n : Int) % 2 ^ 64) = (n : Int) := Int.emod_eq_of_lt (by omega) (by exact_mod_cast h)
  rw [this]
  simp

theorem toInt_npos : toInt npos = -1 := by decide

theorem toSizeT_neg_one : toSizeT (-1) = npos := by decide


theorem orThrow_ok {α : Type} (a : α) (k : α → Outcome) : orThrow (.ok a) k = k a := rfl

theorem orThrow_error {α : Type} (e : Exception) (k : α → Outcome) :
    orThrow (.error e) k = .threw e := rfl

theorem strip_delimiter (x delimiter : Bytes) (y : Char) :
    resize (x ++ y :: delimiter) (sizeSub (x ++ y :: delimiter).length (delimiter.length + 1))
      = .ok x := by
  have hlen : (x ++ y :: delimiter).length = x.length + (delimiter.length + 1) := by simp
  have hsub : sizeSub (x ++ y :: delimiter).length (delimiter.length + 1) = x.length := by
    unfold sizeSub
    rw [hlen, if_pos (by omega)]
    omega
  rw [hsub]
  unfold resize
  rw [if_pos (by rw [hlen]; omega)]
  simp

theorem strip_underflow (command delimiter : Bytes) (h : command.length ≤ delimiter.length)
    (hd : delimiter.length < 2 ^ 62) :
    resize command (sizeSub command.length (delimiter.length + 1)) = .error .length_error := by
  have hsub : sizeSub command.length (delimiter.length + 1)
      = command.length + 2 ^ 64 - (delimiter.length + 1) := by
    unfold sizeSub
    rw [if_neg (by omega)]
  rw [hsub]
  unfold resize max_size
  rw [if_neg (by omega), if_pos (by omega)]

theorem parseResponse_split (delimiter pre st : Bytes) (y : Char) (hst : '\n' ∉ st)
    (hlen : pre.length + 1 < 2 ^ 31) :
    parseResponse delimiter ((pre ++ '\n' :: st) ++ y :: delimiter) =
      orThrow (stoi st) fun v => .returned pre v := by
  unfold parseResponse
  rw [strip_delimiter, orThrow_ok]
  dsimp only
  rw [rfind_append_cons pre st '\n' hst, toInt_of_lt _ (by omega)]
  have h1 : wrapInt ((pre.length : Int) + 1) = ((pre.length + 1 : Nat) : Int) := by
    rw [wrapInt_of_range _ (by omega) (by omega)]
    simp
  rw [h1, toSizeT_natCast _ (by omega), toSizeT_natCast _ (by omega)]
  have hs1 : substr (pre ++ '\n' :: st) (pre.length + 1) (pre ++ '\n' :: st).length = .ok st := by
    unfold substr
    rw [if_neg (by simp)]
    have : List.drop (pre.length + 1) (pre ++ '\n' :: st) = st := by
      rw [List.drop_append_eq_append_drop]
      simp
    rw [this, List.take_of_length_le (by simp; omega)]
  have hs2 : substr (pre ++ '\n' :: st) 0 pre.length = .ok pre := by
    unfold substr
    simp
  rw [hs1, orThrow_ok, hs2]
  rfl

theorem parseResponse_no_newline (delimiter st : Bytes) (y : Char) (hst : '\n' ∉ st)
    (hlen : st.length < 2 ^ 64) :
    parseResponse delimiter (st ++ y :: delimiter) =
      orThrow (stoi st) fun v => .returned st v := by
  unfold parseResponse
  rw [strip_delimiter, orThrow_ok]
  dsimp only
  rw [rfind_of_not_mem st '\n' hst, toInt_npos]
  have h1 : toSizeT (wrapInt (-1 + 1)) = 0 := by decide
  rw [h1, toSizeT_neg_one]
  have hs1 : substr st 0 st.length = .ok st := by
    unfold substr
    simp
  have hs2 : substr st 0 npos = .ok st := by
    unfold substr npos
    simp only [List.length_nil, Nat.not_lt_zero, ↓reduceIte, List.drop_zero, gt_iff_lt,
      Nat.not_lt_zero]
    rw [List.take_of_length_le (by omega)]
  rw [hs1, orThrow_ok, hs2]
  rfl

theorem no_early_delimiter (body delimiter t : Bytes) (x : Char) (hD : delimiter = x :: t)
    (hx : x ∉ body) :
    ∀ p, p <+: body ++ delimiter → p ≠ body ++ delimiter → ¬ delimiter <:+ p := by
  rintro p ⟨q, hq⟩ hne ⟨p1, rfl⟩
  have hqne : q ≠ [] := by
    rintro rfl
    exact hne (by simpa using hq)
  rw [List.append_assoc] at hq
  rcases List.append_eq_append_iff.1 hq with ⟨a, ha, hb⟩ | ⟨c, _, hc⟩
  · cases a with
    | nil =>
      have : (delimiter ++ q).length = delimiter.length := by rw [hb]; simp
      simp only [List.length_append] at this
      exact hqne (List.length_eq_zero.1 (by omega))
    | cons z a =>
      rw [hD] at hb
      simp only [List.cons_append, List.cons.injEq] at hb
      apply hx
      rw [ha, hb.1]
      simp
  · have : delimiter.length = (c ++ (delimiter ++ q)).length := by rw [← hc]
    simp only [List.length_append] at this
    exact hqne (List.length_eq_zero.1 (by omega))

theorem receiveLoop_chunks (delimiter : Bytes) (rest : List ReadResult) :
    ∀ (cs : List Bytes) (acc : Bytes), cs ≠ [] → (∀ c ∈ cs, c ≠ []) →
      delimiter <:+ acc ++ cs.flatten →
      (∀ p, p <+: acc ++ cs.flatten → p ≠ acc ++ cs.flatten → ¬ delimiter <:+ p) →
      receiveLoop delimiter acc (cs.map .ok ++ rest) = some (acc ++ cs.flatten, rest) := by
  intro cs
  induction cs with
  | nil => intro acc h; exact absurd rfl h
  | cons c cs ih =>
    intro acc _ hne hend hno
    have hc : c ≠ [] := hne c (by simp)
    have hlen : ¬ ((ReadResult.ok c).len ≤ 0) := by
      have : 0 < c.length := List.length_pos.2 hc
      simp only [ReadResult.len]
      omega
    simp only [List.map_cons, List.cons_append, receiveLoop, if_neg hlen, ReadResult.chunk]
    by_cases hcs : cs = []
    · subst hcs
      simp only [List.flatten_cons, List.flatten_nil, List.append_nil] at hend
      simp [(endsWithDelimiter_iff _ _).2 hend]
    · have hne2 : ∀ d ∈ cs, d ≠ [] := fun d hd => hne d (by simp [hd])
      have hfl : cs.flatten ≠ [] := by
        cases cs with
        | nil => exact absurd rfl hcs
        | cons d ds =>
          have := hne2 d (by simp)
          simp [this]
      have hprop : ¬ delimiter <:+ acc ++ c := by
        apply hno
        · exact ⟨cs.flatten, by simp⟩
        · intro h
          have : (acc ++ c).length = (acc ++ (c :: cs).flatten).length := by rw [← h]
          simp only [List.flatten_cons, List.length_append] at this
          exact hfl (List.length_eq_zero.1 (by omega))
      rw [endsWithDelimiter_eq_false _ _ hprop]
      simp only [Bool.false_eq_true, ↓reduceIte]
      have := ih (acc ++ c) hcs hne2 (by simpa using hend) (by simpa using hno)
      simpa using this

theorem receiveLoop_failed (delimiter : Bytes) (r : ReadResult) (hr : r.len ≤ 0)
    (rest : List ReadResult) :
    ∀ (cs : List Bytes) (acc : Bytes), (∀ c ∈ cs, c ≠ []) →
      (∀ p, p <+: cs → p ≠ [] → ¬ delimiter <:+ acc ++ p.flatten) →
      receiveLoop delimiter acc (cs.map .ok ++ r :: rest)
        = some ((acc ++ cs.flatten) ++ ('\n' :: to_string (-1) ++ '\n' :: delimiter), rest) := by
  intro cs
  induction cs with
  | nil =>
    intro acc _ _
    simp [receiveLoop, hr]
  | cons c cs ih =>
    intro acc hne hno
    have hc : c ≠ [] := hne c (by simp)
    have hlen : ¬ ((ReadResult.ok c).len ≤ 0) := by
      have : 0 < c.length := List.length_pos.2 hc
      simp only [ReadResult.len]
      omega
    simp only [List.map_cons, List.cons_append, receiveLoop, if_neg hlen, ReadResult.chunk]
    have hprop : ¬ delimiter <:+ acc ++ c := by
      have := hno [c] (by simp) (by simp)
      simpa using this
    rw [endsWithDelimiter_eq_false _ _ hprop]
    simp only [Bool.false_eq_true, ↓reduceIte]
    have hne2 : ∀ d ∈ cs, d ≠ [] := fun d hd => hne d (by simp [hd])
    have := ih (acc ++ c) hne2 (by
      intro p hp hpne
      have := hno (c :: p) (by simpa using hp) (by simp)
      simpa using this)
    simpa using this


/-! ## Lemmas on `generateDelimiter` and on the status digits -/

theorem generate_length {σ : Type} (next : σ → Nat × σ) :
    ∀ (n : Nat) (prng : σ), (generate next n prng).1.length = n := by
  intro n
  induction n with
  | zero => intro prng; rfl
  | succ n ih => intro prng; simp [generate, ih]

theorem letter_of_draw (raw : Nat) :
    let c := Char.ofNat (uniform_int_distribution 'a'.toNat 'z'.toNat raw)
    'a' ≤ c ∧ c ≤ 'z' ∧ c ≠ '\n' ∧ c.isDigit = false ∧ c ≠ Char.ofNat 0 := by
  have h : raw % 26 < 26 := Nat.mod_lt _ (by decide)
  have hu : uniform_int_distribution 'a'.toNat 'z'.toNat raw = 97 + raw % 26 := rfl
  simp only [hu]
  generalize raw % 26 = r at h
  interval_cases r <;> decide

theorem generate_letters {σ : Type} (next : σ → Nat × σ) :
    ∀ (n : Nat) (prng : σ), ∀ c ∈ (generate next n prng).1,
      'a' ≤ c ∧ c ≤ 'z' ∧ c ≠ '\n' ∧ c.isDigit = false ∧ c ≠ Char.ofNat 0 := by
  intro n
  induction n with
  | zero => intro prng c hc; simp [generate] at hc
  | succ n ih =>
    intro prng c hc
    simp only [generate, List.mem_cons] at hc
    rcases hc with rfl | hc
    · exact letter_of_draw (next prng).1
    · exact ih _ c hc

theorem generate_fixedGen : ∀ n : Nat, generate fixedGen n () = (List.replicate n 'z', ()) := by
  intro n
  induction n with
  | zero => rfl
  | succ n ih =>
    simp only [generate, ih, List.replicate_succ]
    rfl

theorem generateDelimiter_fixedGen : (generateDelimiter fixedGen ()).1 = fixedDelimiter := by
  unfold generateDelimiter fixedDelimiter
  rw [generate_fixedGen]

theorem stoi_to_string (n : Nat) (hn : n ≤ 255) :
    stoi (to_string (n : Int)) = .ok (n : Int) ∧ '\n' ∉ to_string (n : Int) := by
  interval_cases n <;> exact ⟨rfl, by decide⟩

theorem stoi_minus_one : stoi (to_string (-1)) = .ok (-1) ∧ '\n' ∉ to_string (-1) :=
  ⟨rfl, by decide⟩


/-! ## Lemmas on `runCommand` -/

theorem runCommand_written {σ : Type} (next : σ → Nat × σ) (prng : σ) (command : Bytes)
    (len : Int) (reads : List ReadResult) :
    (runCommand next prng command len reads).written
      = command ++ (statusEcho ++ ((generateDelimiter next prng).1 ++ ['\n'])) := by
  unfold runCommand
  dsimp only
  split
  · rfl
  · split <;> rfl

theorem runCommand_received {σ : Type} (next : σ → Nat × σ) (prng : σ) (command : Bytes)
    (len : Int) (reads rest : List ReadResult) (buffer : Bytes) (hlen : 0 < len)
    (h : receiveLoop ((generateDelimiter next prng).1 ++ ['\n']) [] reads = some (buffer, rest)) :
    (runCommand next prng command len reads).outcome
        = parseResponse ((generateDelimiter next prng).1 ++ ['\n']) buffer ∧
      (runCommand next prng command len reads).unread = rest := by
  unfold runCommand
  dsimp only
  rw [if_neg (by omega), h]
  exact ⟨rfl, rfl⟩

theorem runCommand_blocked {σ : Type} (next : σ → Nat × σ) (prng : σ) (command : Bytes)
    (len : Int) (reads : List ReadResult) (hlen : 0 < len)
    (h : receiveLoop ((generateDelimiter next prng).1 ++ ['\n']) [] reads = none) :
    (runCommand next prng command len reads).outcome = .blocked := by
  unfold runCommand
  dsimp only
  rw [if_neg (by omega), h]

theorem runCommand_not_written {σ : Type} (next : σ → Nat × σ) (prng : σ) (command : Bytes)
    (len : Int) (reads : List ReadResult) (hlen : len ≤ 0) :
    (runCommand next prng command len reads).outcome = .returned [] (-1) ∧
      (runCommand next prng command len reads).unread = reads := by
  unfold runCommand
  dsimp only
  rw [if_pos hlen]
  exact ⟨rfl, rfl⟩

/-- The receive loop on a complete response: whatever the split into non-empty
chunks, every chunk is consumed and the buffer is the whole stream. -/
theorem receiveLoop_stream (delimiter s : Bytes) (cs : List Bytes) (rest : List ReadResult)
    (hd : delimiter ≠ []) (hcs : cs.flatten = s) (hne : ∀ c ∈ cs, c ≠ [])
    (hend : delimiter <:+ s)
    (hno : ∀ p, p <+: s → p ≠ s → ¬ delimiter <:+ p) :
    receiveLoop delimiter [] (cs.map .ok ++ rest) = some (s, rest) := by
  have hcsne : cs ≠ [] := by
    rintro rfl
    simp only [List.flatten_nil] at hcs
    subst hcs
    exact hd (List.eq_nil_of_suffix_nil hend)
  subst hcs
  have := receiveLoop_chunks delimiter rest cs [] hcsne hne (by simpa using hend)
    (by simpa using hno)
  simpa using this


/-! ## Lemmas on the example inputs -/

theorem fixedDelimiter_line : fixedDelimiter ++ ['\n'] = 'z' :: (List.replicate 127 'z' ++ ['\n']) :=
  rfl

theorem bigOutput_length : bigOutput.length = 2 ^ 31 := by
  unfold bigOutput
  rw [List.length_replicate]

theorem bigChunks_flatten : bigChunks.flatten = bigOutput := by
  unfold bigChunks bigOutput
  rw [List.flatten_replicate_replicate]
  exact congrArg (fun n => List.replicate n 'x') (by norm_num)

theorem bigOutput_mem (c : Char) (h : c ∈ bigOutput) : c = 'x' := by
  unfold bigOutput at h
  exact List.eq_of_mem_replicate h

theorem bigChunks_mem (c : Bytes) (h : c ∈ bigChunks) : c = List.replicate 1024 'x' := by
  unfold bigChunks at h
  exact List.eq_of_mem_replicate h

theorem bigChunks_chunk (c : Bytes) (h : c ∈ bigChunks) : c ≠ [] ∧ c.length ≤ bufferSize := by
  rw [bigChunks_mem c h]
  constructor
  · intro h0
    have : (List.replicate 1024 'x').length = 0 := by rw [h0]; rfl
    rw [List.length_replicate] at this
    omega
  · rw [List.length_replicate]
    decide

theorem bigChunks_initial_mem (p : List Bytes) (hp : p <+: bigChunks) (c : Char)
    (hc : c ∈ p.flatten) : c = 'x' := by
  rcases List.mem_flatten.1 hc with ⟨l, hl, hcl⟩
  have hl2 : l ∈ bigChunks := hp.subset hl
  rw [bigChunks_mem l hl2] at hcl
  exact List.eq_of_mem_replicate hcl

/-- At `2^31` bytes before the status line the position of the last newline no
longer fits an `int`, and the first `substr` throws. -/
theorem parseResponse_two_gib (delimiter pre st : Bytes) (y : Char) (hst : '\n' ∉ st)
    (hpre : pre.length = 2 ^ 31) (hlen : st.length < 2 ^ 31) :
    parseResponse delimiter ((pre ++ '\n' :: st) ++ y :: delimiter) = .threw .out_of_range := by
  unfold parseResponse
  rw [strip_delimiter, orThrow_ok]
  dsimp only
  rw [rfind_append_cons pre st '\n' hst, hpre]
  have h1 : toSizeT (wrapInt (toInt (2 ^ 31) + 1)) = 2 ^ 64 - 2 ^ 31 + 1 := by decide
  rw [h1]
  have hs : substr (pre ++ '\n' :: st) (2 ^ 64 - 2 ^ 31 + 1) (pre ++ '\n' :: st).length
      = .error .out_of_range := by
    unfold substr
    rw [if_pos (by simp only [List.length_append, List.length_cons]; omega)]
  rw [hs, orThrow_error]


/-! ## The delimiter and the framing of the command -/

/-- C7: whatever the generator and its state, `generateDelimiter` returns 128
characters, each a lowercase letter between `a` and `z` (so none is a newline, a
digit or NUL); the delimiter line `runCommand` appends to what it writes is
that string followed by one newline, 129 bytes in all. -/
theorem generateDelimiter_letters {σ : Type} (next : σ → Nat × σ) (prng : σ) (command : Bytes)
    (len : Int) (reads : List ReadResult) :
    (generateDelimiter next prng).1.length = 128 ∧
      (∀ c ∈ (generateDelimiter next prng).1,
        'a' ≤ c ∧ c ≤ 'z' ∧ c ≠ '\n' ∧ c.isDigit = false ∧ c ≠ Char.ofNat 0) ∧
      ((generateDelimiter next prng).1 ++ ['\n']).length = 129 ∧
      (generateDelimiter next prng).1 ++ ['\n'] <:+
        (runCommand next prng command len reads).written := by
  refine ⟨generate_length next 128 prng, generate_letters next 128 prng, ?_, ?_⟩
  · rw [List.length_append, generateDelimiter, generate_length]
    rfl
  · rw [runCommand_written]
    exact ⟨command ++ statusEcho, by simp⟩

/-- C6: the bytes handed to `write` are the raw command, then ` 2>&1` and a
newline, then `echo -e $?"\n"`, then the delimiter and a newline; the raw
command is a prefix, the delimiter line is the end, and the receive loop that
follows a successful write matches that same delimiter line. -/
theorem runCommand_framing {σ : Type} (next : σ → Nat × σ) (prng : σ) (command : Bytes)
    (len : Int) (reads : List ReadResult) :
    (runCommand next prng command len reads).written
        = command ++ [' ', '2', '>', '&', '1', '\n']
          ++ ['e', 'c', 'h', 'o', ' ', '-', 'e', ' ', '$', '?',
              Char.ofNat 34, Char.ofNat 92, 'n', Char.ofNat 34]
          ++ (generateDelimiter next prng).1 ++ ['\n'] ∧
      command <+: (runCommand next prng command len reads).written ∧
      (generateDelimiter next prng).1 ++ ['\n'] <:+
        (runCommand next prng command len reads).written ∧
      (0 < len →
        (receiveLoop ((generateDelimiter next prng).1 ++ ['\n']) [] reads = none →
          (runCommand next prng command len reads).outcome = .blocked) ∧
        ∀ buffer rest,
          receiveLoop ((generateDelimiter next prng).1 ++ ['\n']) [] reads = some (buffer, rest) →
          (runCommand next prng command len reads).unread = rest ∧
          (runCommand next prng command len reads).outcome
            = parseResponse ((generateDelimiter next prng).1 ++ ['\n']) buffer) := by
  refine ⟨?_, ?_, ?_, ?_⟩
  · rw [runCommand_written]
    simp [statusEcho]
  · rw [runCommand_written]
    exact List.prefix_append _ _
  · rw [runCommand_written]
    exact ⟨command ++ statusEcho, by simp⟩
  · intro hlen
    refine ⟨runCommand_blocked next prng command len reads hlen, ?_⟩
    intro buffer rest h
    have := runCommand_received next prng command len reads rest buffer hlen h
    exact ⟨this.2, this.1⟩

/-! ## Failure of the write -/

/-- C5, as amended: when `write` returns zero or less, `runCommand` performs no
read and returns the empty output with status `-1`. -/
theorem runCommand_write_failed {σ : Type} (next : σ → Nat × σ) (prng : σ) (command : Bytes)
    (len : Int) (reads : List ReadResult) (hlen : len ≤ 0) :
    (runCommand next prng command len reads).outcome = .returned [] (-1) ∧
      (runCommand next prng command len reads).unread = reads :=
  runCommand_not_written next prng command len reads hlen

/-- Witness for C5: a write that returns `-1`. -/
theorem runCommand_write_failed_witness :
    (-1 : Int) ≤ 0 ∧
      (runCommand fixedGen () assignment (-1) [.ok ['0']]).outcome = .returned [] (-1) ∧
      (runCommand fixedGen () assignment (-1) [.ok ['0']]).unread = [.ok ['0']] :=
  ⟨by decide, runCommand_write_failed fixedGen () assignment (-1) [.ok ['0']] (by decide)⟩

/-- C5 fails for a short write: `write` accepts one byte of the 152 of the framed
command, and `runCommand` still reads the child's answer and returns it. -/
theorem runCommand_short_write :
    (0 : Int) < 1 ∧
      (1 : Int) < ((runCommand fixedGen () assignment 1
        [.ok ('\n' :: '0' :: '\n' :: (fixedDelimiter ++ ['\n']))]).written.length : Int) ∧
      (runCommand fixedGen () assignment 1
        [.ok ('\n' :: '0' :: '\n' :: (fixedDelimiter ++ ['\n']))]).unread = [] ∧
      (runCommand fixedGen () assignment 1
        [.ok ('\n' :: '0' :: '\n' :: (fixedDelimiter ++ ['\n']))]).outcome = .returned [] 0 := by
  have hloop : receiveLoop ((generateDelimiter fixedGen ()).1 ++ ['\n']) []
      [.ok ('\n' :: '0' :: '\n' :: (fixedDelimiter ++ ['\n']))]
      = some ('\n' :: '0' :: '\n' :: (fixedDelimiter ++ ['\n']), []) := by
    rw [generateDelimiter_fixedGen]
    exact receiveLoop_stream (fixedDelimiter ++ ['\n'])
      ('\n' :: '0' :: '\n' :: (fixedDelimiter ++ ['\n']))
      ['\n' :: '0' :: '\n' :: (fixedDelimiter ++ ['\n'])] [] (by decide) rfl (by decide)
      ⟨['\n', '0', '\n'], rfl⟩
      (no_early_delimiter ['\n', '0', '\n'] _ _ 'z' fixedDelimiter_line (by decide))
  have hrun := runCommand_received fixedGen () assignment 1 _ _ _ (by decide) hloop
  refine ⟨by decide, ?_, hrun.2, ?_⟩
  · rw [runCommand_written, generateDelimiter_fixedGen]
    simp only [assignment, statusEcho, fixedDelimiter, List.length_append, List.length_cons,
      List.length_nil, List.length_replicate]
    decide
  · rw [hrun.1, generateDelimiter_fixedGen]
    exact parseResponse_split (fixedDelimiter ++ ['\n']) [] ['0'] '\n' (by decide) (by decide)

/-! ## `startChildShell` -/

/-- C8, as amended: `startChildShell` returns `true` exactly when `fork` returned
a positive process id, whatever the two calls of `pipe` did, and then stores
the read end of the first pipe, the write end of the second and the process
id; whenever it returns `false` the caller's variables are unchanged. -/
theorem startChildShell_result (env : SpawnEnv) (s t : Session) :
    (startChildShell env s = .ret true t ↔
        0 < env.pid ∧
        t = { inFd := (env.inPipe.getD env.inGarbage).1,
              outFd := (env.outPipe.getD env.outGarbage).2,
              childPID := env.pid }) ∧
      (startChildShell env s = .ret false t → t = s) := by
  unfold startChildShell
  constructor
  · constructor
    · intro h
      split at h
      · simp at h
      · split at h
        · split at h
          · simp at h
          · split at h <;> simp at h
        · simp only [SpawnResult.ret.injEq, true_and] at h
          exact ⟨by omega, h.symm⟩
    · rintro ⟨hpid, rfl⟩
      rw [if_neg (by omega), if_neg (by omega)]
  · intro h
    split at h
    · simp only [SpawnResult.ret.injEq, true_and] at h
      exact h.symm
    · split at h
      · split at h
        · simp at h
        · split at h
          · simp at h
          · simp only [SpawnResult.ret.injEq, true_and] at h
            exact h.symm
      · simp at h

/-- C8 fails when the pipes are not created: both calls of `pipe` fail, `fork`
succeeds, and `startChildShell` returns `true` with the uninitialised
descriptors. -/
theorem startChildShell_pipes_failed :
    startChildShell
        { inPipe := none, outPipe := none, inGarbage := (-7, -8), outGarbage := (-5, -6),
          pid := 4242, execOk := true, killEnds := true }
        { inFd := 0, outFd := 0, childPID := 0 }
      = .ret true { inFd := -7, outFd := -6, childPID := 4242 } := by
  decide


/-! ## A complete response -/

theorem okTrailer_chunk : okTrailer ≠ [] ∧ okTrailer.length ≤ bufferSize := by
  constructor
  · simp [okTrailer]
  · simp [okTrailer, fixedDelimiter, bufferSize]

theorem bigOutput_okTrailer :
    bigOutput ++ okTrailer = (bigOutput ++ '\n' :: ['0']) ++ '\n' :: (fixedDelimiter ++ ['\n']) := by
  simp [okTrailer]

theorem response_shape (out st delimiter : Bytes) :
    out ++ '\n' :: (st ++ '\n' :: delimiter) = (out ++ '\n' :: st) ++ '\n' :: delimiter := by
  simp

/-- Outputs of fewer than `2^31 - 1` bytes: after a successful write, for a
status `n` in 0..255 and the generated delimiter `D`, when the child's response
`out ++ "\n" ++ decimal n ++ "\n" ++ D ++ "\n"` arrives in non-empty chunks of
at most 1024 bytes and no proper prefix of it ends with the delimiter line,
`runCommand` consumes exactly these chunks and returns `(out, n)`. -/
theorem runCommand_returns_output {σ : Type} (next : σ → Nat × σ) (prng : σ)
    (command out : Bytes) (n : Nat) (len : Int) (cs : List Bytes) (rest : List ReadResult)
    (hlen : 0 < len) (hn : n ≤ 255) (hout : out.length + 1 < 2 ^ 31)
    (hcs : cs.flatten
      = out ++ '\n' :: (to_string (n : Int) ++ '\n' :: ((generateDelimiter next prng).1 ++ ['\n'])))
    (hchunk : ∀ c ∈ cs, c ≠ [] ∧ c.length ≤ bufferSize)
    (hno : ∀ p, p <+: cs.flatten → p ≠ cs.flatten →
      ¬ (generateDelimiter next prng).1 ++ ['\n'] <:+ p) :
    (runCommand next prng command len (cs.map .ok ++ rest)).outcome = .returned out (n : Int) ∧
      (runCommand next prng command len (cs.map .ok ++ rest)).unread = rest := by
  have hloop := receiveLoop_stream ((generateDelimiter next prng).1 ++ ['\n']) cs.flatten cs rest
    (by simp) rfl (fun c hc => (hchunk c hc).1)
    (by rw [hcs]; exact ⟨out ++ '\n' :: to_string (n : Int) ++ ['\n'], by simp⟩) hno
  have hrun := runCommand_received next prng command len _ rest _ hlen hloop
  refine ⟨?_, hrun.2⟩
  rw [hrun.1, hcs, response_shape,
    parseResponse_split _ out _ '\n' (stoi_to_string n hn).2 hout, (stoi_to_string n hn).1]
  rfl

/-- An instance of the preceding theorem: the output `hi` and the status `0`, in
two chunks. -/
theorem runCommand_returns_output_witness :
    (runCommand fixedGen () assignment 152
        ([['h', 'i'], okTrailer].map .ok ++ [])).outcome = .returned ['h', 'i'] ((0 : Nat) : Int) ∧
      (runCommand fixedGen () assignment 152 ([['h', 'i'], okTrailer].map .ok ++ [])).unread = [] :=
  runCommand_returns_output fixedGen () assignment ['h', 'i'] 0 152 [['h', 'i'], okTrailer] []
    (by decide) (by decide) (by decide) (by rw [generateDelimiter_fixedGen]; rfl)
    (by
      intro c hc
      simp only [List.mem_cons, List.mem_singleton, List.not_mem_nil, or_false] at hc
      rcases hc with rfl | rfl
      · decide
      · exact okTrailer_chunk)
    (by
      rw [generateDelimiter_fixedGen]
      exact no_early_delimiter ['h', 'i', '\n', '0', '\n'] _ _ 'z' fixedDelimiter_line (by decide))

/-- C1 fails on the code for an output of `2^31` bytes: the response arrives as
the claim describes, the position of the last newline does not fit the `int`
of line 144, and `runCommand` ends with `std::out_of_range` instead of
returning the output and the status `0`. -/
theorem runCommand_output_two_gib :
    (bigChunks ++ [okTrailer]).flatten
        = bigOutput ++ '\n' :: (to_string ((0 : Nat) : Int)
            ++ '\n' :: ((generateDelimiter fixedGen ()).1 ++ ['\n'])) ∧
      (∀ c ∈ bigChunks ++ [okTrailer], c ≠ [] ∧ c.length ≤ bufferSize) ∧
      (∀ p, p <+: (bigChunks ++ [okTrailer]).flatten → p ≠ (bigChunks ++ [okTrailer]).flatten →
        ¬ (generateDelimiter fixedGen ()).1 ++ ['\n'] <:+ p) ∧
      (runCommand fixedGen () assignment 152 ((bigChunks ++ [okTrailer]).map .ok ++ [])).outcome
        = .threw .out_of_range := by
  have hfl : (bigChunks ++ [okTrailer]).flatten = bigOutput ++ okTrailer := by
    rw [List.flatten_append, bigChunks_flatten]
    simp
  have hx : 'z' ∉ bigOutput ++ ['\n', '0', '\n'] := by
    intro h
    rcases List.mem_append.1 h with h | h
    · exact absurd (bigOutput_mem _ h) (by decide)
    · revert h
      decide
  have hno : ∀ p, p <+: (bigChunks ++ [okTrailer]).flatten →
      p ≠ (bigChunks ++ [okTrailer]).flatten → ¬ fixedDelimiter ++ ['\n'] <:+ p := by
    have := no_early_delimiter (bigOutput ++ ['\n', '0', '\n']) _ _ 'z' fixedDelimiter_line hx
    rw [hfl]
    simpa [okTrailer] using this
  have hchunk : ∀ c ∈ bigChunks ++ [okTrailer], c ≠ [] ∧ c.length ≤ bufferSize := by
    intro c hc
    rcases List.mem_append.1 hc with h | h
    · exact bigChunks_chunk c h
    · rw [List.mem_singleton.1 h]
      exact okTrailer_chunk
  rw [generateDelimiter_fixedGen]
  refine ⟨hfl, hchunk, hno, ?_⟩
  have hloop := receiveLoop_stream (fixedDelimiter ++ ['\n']) (bigChunks ++ [okTrailer]).flatten
    (bigChunks ++ [okTrailer]) [] (by decide) rfl (fun c hc => (hchunk c hc).1)
    (by rw [hfl]; exact ⟨bigOutput ++ ['\n', '0', '\n'], by simp [okTrailer]⟩) hno
  rw [← generateDelimiter_fixedGen] at hloop
  have hrun := runCommand_received fixedGen () assignment 152 _ [] _ (by decide) hloop
  rw [hrun.1, hfl, generateDelimiter_fixedGen, bigOutput_okTrailer]
  exact parseResponse_two_gib (fixedDelimiter ++ ['\n']) bigOutput ['0'] '\n' (by decide)
    bigOutput_length (by decide)


/-! ## A command that prints nothing -/

/-- C2 fails on the code: for `X=1` the child's whole response is `0`, a newline
and the delimiter line; `runCommand` finds no newline in what is left after
the strip and returns the status digits as the output, `("0", 0)` and not
`("", 0)`. -/
theorem runCommand_silent_command :
    (runCommand fixedGen () assignment 152
        [.ok (to_string ((0 : Nat) : Int)
          ++ '\n' :: ((generateDelimiter fixedGen ()).1 ++ ['\n']))]).outcome
      = .returned ['0'] 0 := by
  have hs : to_string ((0 : Nat) : Int) ++ '\n' :: ((generateDelimiter fixedGen ()).1 ++ ['\n'])
      = ['0'] ++ '\n' :: (fixedDelimiter ++ ['\n']) := by
    rw [generateDelimiter_fixedGen]
    rfl
  rw [hs]
  have hloop : receiveLoop ((generateDelimiter fixedGen ()).1 ++ ['\n']) []
      [.ok (['0'] ++ '\n' :: (fixedDelimiter ++ ['\n']))]
      = some (['0'] ++ '\n' :: (fixedDelimiter ++ ['\n']), []) := by
    rw [generateDelimiter_fixedGen]
    exact receiveLoop_stream (fixedDelimiter ++ ['\n'])
      (['0'] ++ '\n' :: (fixedDelimiter ++ ['\n'])) [['0'] ++ '\n' :: (fixedDelimiter ++ ['\n'])] []
      (by decide) (by simp) (by simp) ⟨['0', '\n'], rfl⟩
      (no_early_delimiter ['0', '\n'] _ _ 'z' fixedDelimiter_line (by decide))
  have hrun := runCommand_received fixedGen () assignment 152 _ [] _ (by decide) hloop
  rw [hrun.1, generateDelimiter_fixedGen,
    parseResponse_no_newline (fixedDelimiter ++ ['\n']) ['0'] '\n' (by decide) (by decide)]
  rfl

/-! ## A read that fails -/

theorem failed_shape (soFar st delimiter : Bytes) :
    ([] ++ soFar) ++ ('\n' :: st ++ '\n' :: delimiter)
      = (soFar ++ '\n' :: st) ++ '\n' :: delimiter := by
  simp

/-- Fewer than `2^31 - 1` bytes read: after a successful write, when the chunks
read so far are non-empty and no prefix of them ends with the delimiter line,
a read that returns zero or less makes `runCommand` stop there, with no
further read, and return the bytes read so far with the status `-1`. -/
theorem runCommand_read_failed {σ : Type} (next : σ → Nat × σ) (prng : σ) (command : Bytes)
    (len : Int) (cs : List Bytes) (r : ReadResult) (rest : List ReadResult)
    (hlen : 0 < len) (hr : r.len ≤ 0) (hsize : cs.flatten.length + 1 < 2 ^ 31)
    (hchunk : ∀ c ∈ cs, c ≠ [] ∧ c.length ≤ bufferSize)
    (hno : ∀ p, p <+: cs → ¬ (generateDelimiter next prng).1 ++ ['\n'] <:+ p.flatten) :
    (runCommand next prng command len (cs.map .ok ++ r :: rest)).outcome
        = .returned cs.flatten (-1) ∧
      (runCommand next prng command len (cs.map .ok ++ r :: rest)).unread = rest := by
  have hloop := receiveLoop_failed ((generateDelimiter next prng).1 ++ ['\n']) r hr rest cs []
    (fun c hc => (hchunk c hc).1) (fun p hp _ => by simpa using hno p hp)
  have hrun := runCommand_received next prng command len _ rest _ hlen hloop
  refine ⟨?_, hrun.2⟩
  rw [hrun.1, failed_shape, parseResponse_split _ cs.flatten _ '\n' stoi_minus_one.2 hsize,
    stoi_minus_one.1]
  rfl

/-- An instance of the preceding theorem: the child is killed after it sent
`hel` and `lo`. -/
theorem runCommand_read_failed_witness :
    (runCommand fixedGen () assignment 152
        ([['h', 'e', 'l'], ['l', 'o']].map .ok ++ .fail (-1) :: [.ok ['x']])).outcome
        = .returned [['h', 'e', 'l'], ['l', 'o']].flatten (-1) ∧
      (runCommand fixedGen () assignment 152
        ([['h', 'e', 'l'], ['l', 'o']].map .ok ++ .fail (-1) :: [.ok ['x']])).unread
        = [.ok ['x']] :=
  runCommand_read_failed fixedGen () assignment 152 [['h', 'e', 'l'], ['l', 'o']] (.fail (-1))
    [.ok ['x']] (by decide) (by decide) (by decide) (by decide)
    (by
      rintro p hp ⟨t, ht⟩
      have hmem : '\n' ∈ p.flatten := by
        rw [← ht]
        simp
      rcases List.mem_flatten.1 hmem with ⟨l, hl, hcl⟩
      have hl2 := hp.subset hl
      simp only [List.mem_cons, List.mem_singleton, List.not_mem_nil, or_false] at hl2
      rcases hl2 with rfl | rfl <;> revert hcl <;> decide)

/-- C3 fails on the code once `2^31` bytes have been read: the chunks and the
failed read are as the claim describes, the position of the synthesized
newline does not fit the `int` of line 144, and `runCommand` ends with
`std::out_of_range` instead of returning the partial output with the status
`-1`. -/
theorem runCommand_read_failed_two_gib :
    (∀ c ∈ bigChunks, c ≠ [] ∧ c.length ≤ bufferSize) ∧
      (∀ p, p <+: bigChunks → ¬ (generateDelimiter fixedGen ()).1 ++ ['\n'] <:+ p.flatten) ∧
      (ReadResult.fail (-1)).len ≤ 0 ∧
      (runCommand fixedGen () assignment 152 (bigChunks.map .ok ++ .fail (-1) :: [])).outcome
        = .threw .out_of_range := by
  have hno : ∀ p, p <+: bigChunks →
      ¬ (generateDelimiter fixedGen ()).1 ++ ['\n'] <:+ p.flatten := by
    rintro p hp ⟨t, ht⟩
    have hmem : '\n' ∈ p.flatten := by
      rw [← ht]
      simp
    exact absurd (bigChunks_initial_mem p hp _ hmem) (by decide)
  refine ⟨bigChunks_chunk, hno, by decide, ?_⟩
  have hloop := receiveLoop_failed ((generateDelimiter fixedGen ()).1 ++ ['\n']) (.fail (-1))
    (by decide) [] bigChunks [] (fun c hc => (bigChunks_chunk c hc).1)
    (fun p hp _ => by simpa using hno p hp)
  have hrun := runCommand_received fixedGen () assignment 152 _ [] _ (by decide) hloop
  rw [hrun.1, failed_shape, bigChunks_flatten]
  exact parseResponse_two_gib _ bigOutput (to_string (-1)) '\n' stoi_minus_one.2
    bigOutput_length (by decide)


/-! ## The conversion of the status -/

/-- On a complete response, `runCommand` returns what `stoi` makes of the text
between the last newline before the delimiter line and that line. -/
theorem runCommand_status {σ : Type} (next : σ → Nat × σ) (prng : σ)
    (command pre st : Bytes) (len : Int) (cs : List Bytes) (rest : List ReadResult)
    (hlen : 0 < len) (hst : '\n' ∉ st) (hpre : pre.length + 1 < 2 ^ 31)
    (hcs : cs.flatten = pre ++ '\n' :: (st ++ '\n' :: ((generateDelimiter next prng).1 ++ ['\n'])))
    (hne : ∀ c ∈ cs, c ≠ [])
    (hno : ∀ p, p <+: cs.flatten → p ≠ cs.flatten →
      ¬ (generateDelimiter next prng).1 ++ ['\n'] <:+ p) :
    (runCommand next prng command len (cs.map .ok ++ rest)).outcome
        = orThrow (stoi st) (fun v => .returned pre v) ∧
      (runCommand next prng command len (cs.map .ok ++ rest)).unread = rest := by
  have hloop := receiveLoop_stream ((generateDelimiter next prng).1 ++ ['\n']) cs.flatten cs rest
    (by simp) rfl hne (by rw [hcs]; exact ⟨pre ++ '\n' :: st ++ ['\n'], by simp⟩) hno
  have hrun := runCommand_received next prng command len _ rest _ hlen hloop
  refine ⟨?_, hrun.2⟩
  rw [hrun.1, hcs, response_shape, parseResponse_split _ pre st '\n' hst hpre]

theorem stoi_no_digits (st : Bytes)
    (h : (skipSign (st.dropWhile isspace)).2.takeWhile Char.isDigit = []) :
    stoi st = .error .invalid_argument := by
  unfold stoi
  simp [h]

theorem stoi_digits (st : Bytes)
    (h : (skipSign (st.dropWhile isspace)).2.takeWhile Char.isDigit ≠ [])
    (hlo : -(2 ^ 31) ≤ (if (skipSign (st.dropWhile isspace)).1
        then -(digitsValue ((skipSign (st.dropWhile isspace)).2.takeWhile Char.isDigit) : Int)
        else (digitsValue ((skipSign (st.dropWhile isspace)).2.takeWhile Char.isDigit) : Int)))
    (hhi : (if (skipSign (st.dropWhile isspace)).1
        then -(digitsValue ((skipSign (st.dropWhile isspace)).2.takeWhile Char.isDigit) : Int)
        else (digitsValue ((skipSign (st.dropWhile isspace)).2.takeWhile Char.isDigit) : Int))
          ≤ 2 ^ 31 - 1) :
    stoi st = .ok (if (skipSign (st.dropWhile isspace)).1
        then -(digitsValue ((skipSign (st.dropWhile isspace)).2.takeWhile Char.isDigit) : Int)
        else (digitsValue ((skipSign (st.dropWhile isspace)).2.takeWhile Char.isDigit) : Int)) := by
  unfold stoi
  dsimp only
  rw [if_neg (by simpa using h), if_neg (by omega)]

/-- C4, as amended: on a delimiter-terminated response with fewer than
`2^31 - 1` bytes before the status line, `runCommand` converts the status
substring as `std::stoi` does: leading white space and an optional sign are
skipped and the longest run of decimal digits that follows is converted.  With
no digit there the call ends with `std::invalid_argument` and returns no
status; otherwise, the value fitting an `int`, it returns the value of those
digits, whatever follows them. -/
theorem runCommand_status_conversion {σ : Type} (next : σ → Nat × σ) (prng : σ)
    (command pre st : Bytes) (len : Int) (cs : List Bytes) (rest : List ReadResult)
    (hlen : 0 < len) (hst : '\n' ∉ st) (hpre : pre.length + 1 < 2 ^ 31)
    (hcs : cs.flatten = pre ++ '\n' :: (st ++ '\n' :: ((generateDelimiter next prng).1 ++ ['\n'])))
    (hchunk : ∀ c ∈ cs, c ≠ [] ∧ c.length ≤ bufferSize)
    (hno : ∀ p, p <+: cs.flatten → p ≠ cs.flatten →
      ¬ (generateDelimiter next prng).1 ++ ['\n'] <:+ p) :
    let signed := skipSign (st.dropWhile isspace)
    let ds := signed.2.takeWhile Char.isDigit
    let v : Int := if signed.1 then -(digitsValue ds : Int) else (digitsValue ds : Int)
    (ds = [] →
        (runCommand next prng command len (cs.map .ok ++ rest)).outcome
          = .threw .invalid_argument) ∧
      (ds ≠ [] → -(2 ^ 31) ≤ v → v ≤ 2 ^ 31 - 1 →
        (runCommand next prng command len (cs.map .ok ++ rest)).outcome = .returned pre v) ∧
      (runCommand next prng command len (cs.map .ok ++ rest)).unread = rest := by
  have hrun := runCommand_status next prng command pre st len cs rest hlen hst hpre hcs
    (fun c hc => (hchunk c hc).1) hno
  refine ⟨?_, ?_, hrun.2⟩
  · intro h
    rw [hrun.1, stoi_no_digits st h]
    rfl
  · intro h hlo hhi
    rw [hrun.1, stoi_digits st h hlo hhi]
    rfl

/-- Witness for C4: the status substring ` 7`, a blank and a digit. -/
theorem runCommand_status_conversion_witness :
    (runCommand fixedGen () assignment 152
        ([['o', 'u', 't', '\n', ' ', '7'], '\n' :: (fixedDelimiter ++ ['\n'])].map .ok ++ [])).outcome
      = .returned ['o', 'u', 't'] 7 :=
  (runCommand_status_conversion fixedGen () assignment ['o', 'u', 't'] [' ', '7'] 152
    [['o', 'u', 't', '\n', ' ', '7'], '\n' :: (fixedDelimiter ++ ['\n'])] []
    (by decide) (by decide) (by decide) (by rw [generateDelimiter_fixedGen]; rfl)
    (by
      intro c hc
      simp only [List.mem_cons, List.mem_singleton, List.not_mem_nil, or_false] at hc
      rcases hc with rfl | rfl
      · decide
      · simp [fixedDelimiter, bufferSize])
    (by
      rw [generateDelimiter_fixedGen]
      exact no_early_delimiter ['o', 'u', 't', '\n', ' ', '7', '\n'] _ _ 'z' fixedDelimiter_line
        (by decide))).2.1 (by decide) (by decide) (by decide)

/-- C4 fails for the status substring `1abc`, which is not a decimal integer in
its entirety: `runCommand` returns the status `1`, made of its first
character only. -/
theorem runCommand_status_trailing_text :
    (runCommand fixedGen () assignment 152
        ([['o', 'u', 't'] ++ '\n' :: (['1', 'a', 'b', 'c']
          ++ '\n' :: ((generateDelimiter fixedGen ()).1 ++ ['\n']))].map .ok ++ [])).outcome
      = .returned ['o', 'u', 't'] 1 := by
  have hrun := runCommand_status fixedGen () assignment ['o', 'u', 't'] ['1', 'a', 'b', 'c'] 152
    [['o', 'u', 't'] ++ '\n' :: (['1', 'a', 'b', 'c']
      ++ '\n' :: ((generateDelimiter fixedGen ()).1 ++ ['\n']))] []
    (by decide) (by decide) (by decide) (by simp) (by simp)
    (by
      rw [generateDelimiter_fixedGen]
      have := no_early_delimiter ['o', 'u', 't', '\n', '1', 'a', 'b', 'c', '\n'] _ _ 'z'
        fixedDelimiter_line (by decide)
      simpa using this)
  rw [hrun.1]
  rfl


/-! ## Independence of the chunking -/

/-- C9: for a stream `s` that ends with the delimiter line and has no proper
prefix ending with it, and for any two splits of `s` into non-empty chunks of
at most 1024 bytes, the receive loop consumes all the chunks of either split,
exits with `s` as its buffer, and `runCommand` ends the same way for both. -/
theorem runCommand_chunking_independent {σ : Type} (next : σ → Nat × σ) (prng : σ)
    (command s : Bytes) (len : Int) (cs₁ cs₂ : List Bytes) (rest₁ rest₂ : List ReadResult)
    (hlen : 0 < len)
    (hend : (generateDelimiter next prng).1 ++ ['\n'] <:+ s)
    (hno : ∀ p, p <+: s → p ≠ s → ¬ (generateDelimiter next prng).1 ++ ['\n'] <:+ p)
    (h₁ : cs₁.flatten = s) (h₂ : cs₂.flatten = s)
    (hchunk₁ : ∀ c ∈ cs₁, c ≠ [] ∧ c.length ≤ bufferSize)
    (hchunk₂ : ∀ c ∈ cs₂, c ≠ [] ∧ c.length ≤ bufferSize) :
    receiveLoop ((generateDelimiter next prng).1 ++ ['\n']) [] (cs₁.map .ok ++ rest₁)
        = some (s, rest₁) ∧
      receiveLoop ((generateDelimiter next prng).1 ++ ['\n']) [] (cs₂.map .ok ++ rest₂)
        = some (s, rest₂) ∧
      (runCommand next prng command len (cs₁.map .ok ++ rest₁)).unread = rest₁ ∧
      (runCommand next prng command len (cs₂.map .ok ++ rest₂)).unread = rest₂ ∧
      (runCommand next prng command len (cs₁.map .ok ++ rest₁)).outcome
        = (runCommand next prng command len (cs₂.map .ok ++ rest₂)).outcome := by
  have hl₁ := receiveLoop_stream ((generateDelimiter next prng).1 ++ ['\n']) s cs₁ rest₁
    (by simp) h₁ (fun c hc => (hchunk₁ c hc).1) hend hno
  have hl₂ := receiveLoop_stream ((generateDelimiter next prng).1 ++ ['\n']) s cs₂ rest₂
    (by simp) h₂ (fun c hc => (hchunk₂ c hc).1) hend hno
  have hr₁ := runCommand_received next prng command len _ rest₁ _ hlen hl₁
  have hr₂ := runCommand_received next prng command len _ rest₂ _ hlen hl₂
  exact ⟨hl₁, hl₂, hr₁.2, hr₂.2, by rw [hr₁.1, hr₂.1]⟩

/-- Witness for C9: the response to a command that printed `hi`, in one chunk
and in three. -/
theorem runCommand_chunking_independent_witness :
    (runCommand fixedGen () assignment 152
        ([['h', 'i'] ++ okTrailer].map .ok ++ [])).outcome
      = (runCommand fixedGen () assignment 152
        ([['h'], ['i', '\n', '0'], '\n' :: (fixedDelimiter ++ ['\n'])].map .ok ++ [])).outcome :=
  (runCommand_chunking_independent fixedGen () assignment (['h', 'i'] ++ okTrailer) 152
    [['h', 'i'] ++ okTrailer] [['h'], ['i', '\n', '0'], '\n' :: (fixedDelimiter ++ ['\n'])] [] []
    (by decide)
    (by rw [generateDelimiter_fixedGen]; exact ⟨['h', 'i', '\n', '0', '\n'], rfl⟩)
    (by
      rw [generateDelimiter_fixedGen]
      exact no_early_delimiter ['h', 'i', '\n', '0', '\n'] _ _ 'z' fixedDelimiter_line (by decide))
    (by simp) rfl
    (by
      intro c hc
      rw [List.mem_singleton.1 hc]
      constructor
      · simp
      · simp [okTrailer, fixedDelimiter, bufferSize])
    (by
      intro c hc
      simp only [List.mem_cons, List.mem_singleton, List.not_mem_nil, or_false] at hc
      rcases hc with rfl | rfl | rfl
      · decide
      · decide
      · simp [fixedDelimiter, bufferSize])).2.2.2.2

/-! ## The buffer when the receive loop exits -/

theorem receiveLoop_exit_aux (delimiter : Bytes) :
    ∀ (reads : List ReadResult) (acc buffer : Bytes) (rest : List ReadResult),
      receiveLoop delimiter acc reads = some (buffer, rest) →
      delimiter <:+ buffer ∧
        ∃ (performed : List ReadResult) (r : ReadResult), reads = performed ++ r :: rest ∧
          (r.len ≤ 0 → ∃ x, buffer = (x ++ '\n' :: to_string (-1)) ++ '\n' :: delimiter) := by
  intro reads
  induction reads with
  | nil => intro acc buffer rest h; simp [receiveLoop] at h
  | cons r reads ih =>
    intro acc buffer rest h
    simp only [receiveLoop] at h
    by_cases hr : r.len ≤ 0
    · rw [if_pos hr] at h
      simp only [Option.some.injEq, Prod.mk.injEq] at h
      obtain ⟨hb, hrest⟩ := h
      subst hb hrest
      refine ⟨⟨acc ++ '\n' :: to_string (-1) ++ ['\n'], by simp⟩, [], r, rfl, ?_⟩
      intro _
      exact ⟨acc, by simp⟩
    · rw [if_neg hr] at h
      by_cases he : endsWithDelimiter (acc ++ r.chunk) delimiter = true
      · rw [if_pos he] at h
        simp only [Option.some.injEq, Prod.mk.injEq] at h
        obtain ⟨hb, hrest⟩ := h
        subst hb hrest
        exact ⟨(endsWithDelimiter_iff _ _).1 he, [], r, rfl, fun h0 => absurd h0 hr⟩
      · rw [if_neg he] at h
        obtain ⟨hsuf, performed, r', hreads, hfail⟩ := ih _ _ _ h
        exact ⟨hsuf, r :: performed, r', by rw [hreads]; rfl, hfail⟩

theorem strip_longer (delimiter buffer : Bytes) (hsuf : delimiter <:+ buffer)
    (hlong : delimiter.length < buffer.length) :
    ∃ (x : Bytes) (y : Char), buffer = x ++ y :: delimiter ∧
      resize buffer (sizeSub buffer.length (delimiter.length + 1)) = .ok x := by
  obtain ⟨t, rfl⟩ := hsuf
  have ht : t ≠ [] := by
    rintro rfl
    simp at hlong
  refine ⟨t.dropLast, t.getLast ht, ?_, ?_⟩
  · conv_lhs => rw [← List.dropLast_append_getLast ht]
    simp
  · have h := strip_delimiter t.dropLast delimiter (t.getLast ht)
    have he : t.dropLast ++ t.getLast ht :: delimiter = t ++ delimiter := by
      conv_rhs => rw [← List.dropLast_append_getLast ht]
      simp
    rw [he] at h
    exact h

/-- C10, as amended: whenever the receive loop exits, its buffer ends with the
delimiter line, so it is at least as long.  When the buffer is longer than the
delimiter line the subtraction `size - (delimiter line length + 1)` does not
wrap and the strip removes exactly one byte followed by the delimiter line.
When the exit is by a failed read the buffer is at least four bytes longer
than the delimiter line and that byte is a newline. -/
theorem receiveLoop_exit (delimiter : Bytes) (reads : List ReadResult) (buffer : Bytes)
    (rest : List ReadResult) (h : receiveLoop delimiter [] reads = some (buffer, rest)) :
    delimiter <:+ buffer ∧ delimiter.length ≤ buffer.length ∧
      (delimiter.length < buffer.length →
        sizeSub buffer.length (delimiter.length + 1) = buffer.length - (delimiter.length + 1) ∧
        ∃ (x : Bytes) (y : Char), buffer = x ++ y :: delimiter ∧
          resize buffer (sizeSub buffer.length (delimiter.length + 1)) = .ok x) ∧
      ∃ (performed : List ReadResult) (r : ReadResult), reads = performed ++ r :: rest ∧
        (r.len ≤ 0 →
          delimiter.length + 4 ≤ buffer.length ∧
          ∃ x, buffer = x ++ '\n' :: delimiter ∧
            resize buffer (sizeSub buffer.length (delimiter.length + 1)) = .ok x) := by
  obtain ⟨hsuf, performed, r, hreads, hfail⟩ := receiveLoop_exit_aux delimiter reads [] buffer rest h
  refine ⟨hsuf, hsuf.length_le, ?_, performed, r, hreads, ?_⟩
  · intro hlong
    refine ⟨?_, strip_longer delimiter buffer hsuf hlong⟩
    unfold sizeSub
    rw [if_pos (by omega)]
  · intro hr
    obtain ⟨x, hx⟩ := hfail hr
    have hlen : buffer.length = x.length + 3 + (delimiter.length + 1) := by
      have h2 : (to_string (-1)).length = 2 := rfl
      rw [hx]
      simp only [List.length_append, List.length_cons, h2]
    refine ⟨by omega, x ++ '\n' :: to_string (-1), hx, ?_⟩
    rw [hx]
    exact strip_delimiter _ _ _

/-- Witness for C10: one chunk, then a failed read. -/
theorem receiveLoop_exit_witness :
    receiveLoop ['z', '\n'] [] [.ok ['h', 'i'], .fail (-1), .ok ['x']]
        = some (['h', 'i', '\n', '-', '1', '\n', 'z', '\n'], [.ok ['x']]) ∧
      ['z', '\n'] <:+ ['h', 'i', '\n', '-', '1', '\n', 'z', '\n'] ∧
      ['z', '\n'].length ≤ ['h', 'i', '\n', '-', '1', '\n', 'z', '\n'].length :=
  ⟨by decide,
    (receiveLoop_exit ['z', '\n'] [.ok ['h', 'i'], .fail (-1), .ok ['x']]
      ['h', 'i', '\n', '-', '1', '\n', 'z', '\n'] [.ok ['x']] (by decide)).1,
    (receiveLoop_exit ['z', '\n'] [.ok ['h', 'i'], .fail (-1), .ok ['x']]
      ['h', 'i', '\n', '-', '1', '\n', 'z', '\n'] [.ok ['x']] (by decide)).2.1⟩

/-- C10 fails when the child sends the delimiter line and nothing before it: the
loop exits by a delimiter match with a buffer of 129 bytes, no longer than the
delimiter line, the subtraction wraps to `2^64 - 1`, and `resize` throws
`std::length_error`. -/
theorem receiveLoop_exit_bare_delimiter :
    receiveLoop ((generateDelimiter fixedGen ()).1 ++ ['\n']) []
        [.ok ((generateDelimiter fixedGen ()).1 ++ ['\n'])]
      = some ((generateDelimiter fixedGen ()).1 ++ ['\n'], []) ∧
      ((generateDelimiter fixedGen ()).1 ++ ['\n']).length = 129 ∧
      sizeSub ((generateDelimiter fixedGen ()).1 ++ ['\n']).length
        (((generateDelimiter fixedGen ()).1 ++ ['\n']).length + 1) = 2 ^ 64 - 1 ∧
      (runCommand fixedGen () assignment 152
        [.ok ((generateDelimiter fixedGen ()).1 ++ ['\n'])]).outcome = .threw .length_error := by
  have hlen : ((generateDelimiter fixedGen ()).1 ++ ['\n']).length = 129 := by
    rw [generateDelimiter_fixedGen]
    simp [fixedDelimiter]
  have hloop : receiveLoop ((generateDelimiter fixedGen ()).1 ++ ['\n']) []
      [.ok ((generateDelimiter fixedGen ()).1 ++ ['\n'])]
      = some ((generateDelimiter fixedGen ()).1 ++ ['\n'], []) := by
    rw [generateDelimiter_fixedGen]
    exact receiveLoop_stream (fixedDelimiter ++ ['\n']) (fixedDelimiter ++ ['\n'])
      [fixedDelimiter ++ ['\n']] [] (by simp) (by simp) (by simp) (List.suffix_refl _)
      (no_early_delimiter [] _ _ 'z' fixedDelimiter_line (by simp))
  have hrun := runCommand_received fixedGen () assignment 152 _ [] _ (by decide) hloop
  refine ⟨hloop, hlen, ?_, ?_⟩
  · rw [hlen]
    decide
  · rw [hrun.1]
    unfold parseResponse
    rw [strip_underflow _ _ (le_refl _) (by rw [hlen]; decide), orThrow_error]

end BashPipe
